import Mathlib

/-!
Verification of the contact-scraping pipeline (extractors.py, async_engine.py,
urls.py) against its natural-language specification.

The Python code is shallowly embedded: each Python function relevant to a
claim becomes an executable Lean definition that mirrors the source line by
line.  Python dicts carrying `type`/`value`/optional `confidence` keys become
the `Fact` structure; heterogeneous Python result lists (which may also hold
stray strings) become lists of `RawResult`; fallible calls (network fetches,
HTML parsing, extractor bodies that may raise) are modelled by outcome
oracles supplied as parameters, so a theorem quantifying over the oracle
covers every possible runtime behaviour of the fallible step.
-/

set_option autoImplicit false

namespace WebScrape

/-- A Python result dict with keys `type`, `value` and (sometimes) `confidence`
    (`extractors.py`).  A dict without a `confidence` key is modelled by
    `confidence = none`. -/
structure Fact where
  type : String
  value : String
  confidence : Option ℚ := none
deriving DecidableEq, Repr

/-- An element of a Python results list as seen by `ResultAggregator.aggregate`
    (`extractors.py` lines 417-450): a plain string (skipped), some other
    improperly formatted object (skipped), or a well-formed fact dict. -/
inductive RawResult where
  | str (s : String)
  | malformed
  | fact (f : Fact)
deriving DecidableEq, Repr

/-- `true` exactly on well-formed fact dicts, i.e. the test
    `isinstance(r, dict) and 'type' in r and 'value' in r`. -/
def isFactItem : RawResult → Bool
  | .fact _ => true
  | _ => false

/-- One step of the aggregation dict update in `ResultAggregator.aggregate`:
    `aggregated[result_type].add(value)`, initialising the entry to an empty
    set first when absent.  The per-type Python `set` is modelled as a
    duplicate-free list in insertion order. -/
def insertFact : List (String × List String) → String → String → List (String × List String)
  | [], t, v => [(t, [v])]
  | (t₀, vs) :: rest, t, v =>
    if t₀ = t then (t₀, if v ∈ vs then vs else vs ++ [v]) :: rest
    else (t₀, vs) :: insertFact rest t v

/-- The body of the `for result in results` loop of
    `ResultAggregator.aggregate`: strings and improperly formatted results are
    skipped, results whose value is `'not_found'` are skipped, everything else
    is added to the per-type set. -/
def aggStep (acc : List (String × List String)) (r : RawResult) : List (String × List String) :=
  match r with
  | .str _ => acc
  | .malformed => acc
  | .fact f => if f.value = "not_found" then acc else insertFact acc f.type f.value

/-- The final comprehension of `ResultAggregator.aggregate`:
    `[{'type': k, 'value': v} for k, values in aggregated.items() for v in values]`.
    The produced dicts have no `confidence` key. -/
def flattenAgg (agg : List (String × List String)) : List Fact :=
  agg.flatMap (fun p => p.2.map (fun v => { type := p.1, value := v, confidence := none }))

/-- `ResultAggregator.aggregate` (`extractors.py` lines 417-450). -/
def aggregate (results : List RawResult) : List Fact :=
  flattenAgg (results.foldl aggStep [])

example : aggregate [.fact ⟨"email", "a@b.c", some (6/10)⟩,
                     .fact ⟨"email", "a@b.c", some (9/10)⟩]
    = [{ type := "email", value := "a@b.c", confidence := none }] := by rfl

example : aggregate [.fact ⟨"email", "not_found", none⟩] = [] := by rfl

/-- Membership in the aggregation dict: some per-type set contains the value. -/
def AggMem (agg : List (String × List String)) (t v : String) : Prop :=
  ∃ vs, (t, vs) ∈ agg ∧ v ∈ vs

/-- Well-formedness of the aggregation dict: the keys are distinct (it models a
    Python dict) and each per-type list is duplicate-free (it models a set). -/
def AggInv (agg : List (String × List String)) : Prop :=
  (agg.map Prod.fst).Nodup ∧ ∀ p ∈ agg, p.2.Nodup

theorem aggMem_cons {t₀ : String} {vs : List String}
    {tl : List (String × List String)} {t v : String} :
    AggMem ((t₀, vs) :: tl) t v ↔ (t = t₀ ∧ v ∈ vs) ∨ AggMem tl t v := by
  constructor
  · rintro ⟨ws, hmem, hv⟩
    rcases List.mem_cons.1 hmem with h | h
    · left
      obtain ⟨h1, h2⟩ := Prod.mk.injEq .. ▸ h
      exact ⟨h1, h2 ▸ hv⟩
    · exact Or.inr ⟨ws, h, hv⟩
  · rintro (⟨ht, hv⟩ | ⟨ws, hmem, hv⟩)
    · exact ⟨vs, by simp [ht], hv⟩
    · exact ⟨ws, List.mem_cons_of_mem _ hmem, hv⟩

theorem insertFact_keys (agg : List (String × List String)) (t v : String) :
    (insertFact agg t v).map Prod.fst =
      if t ∈ agg.map Prod.fst then agg.map Prod.fst else agg.map Prod.fst ++ [t] := by
  induction agg with
  | nil => simp [insertFact]
  | cons hd tl ih =>
    obtain ⟨t₀, vs⟩ := hd
    by_cases ht : t₀ = t
    · subst ht
      simp [insertFact]
    · have : (t ∈ (t₀, vs).1 :: tl.map Prod.fst) ↔ t ∈ tl.map Prod.fst := by
        simp [List.mem_cons, Ne.symm ht]
      simp only [insertFact, if_neg ht, List.map_cons, this, ih]
      by_cases hmem : t ∈ tl.map Prod.fst <;> simp [hmem]

theorem insertFact_inv {agg : List (String × List String)} {t v : String}
    (h : AggInv agg) : AggInv (insertFact agg t v) := by
  obtain ⟨hkeys, hvals⟩ := h
  constructor
  · rw [insertFact_keys]
    by_cases hmem : t ∈ agg.map Prod.fst
    · simpa [hmem] using hkeys
    · simp only [if_neg hmem]
      simp [List.nodup_append, hkeys, hmem]
  · intro p hp
    clear hkeys
    induction agg with
    | nil =>
      simp only [insertFact, List.mem_singleton] at hp
      subst hp
      simp
    | cons hd tl ih =>
      obtain ⟨t₀, vs⟩ := hd
      have hvs : vs.Nodup := hvals (t₀, vs) (List.mem_cons_self _ _)
      have hvtl : ∀ q ∈ tl, q.2.Nodup := fun q hq => hvals q (List.mem_cons_of_mem _ hq)
      by_cases ht : t₀ = t
      · simp only [insertFact, if_pos ht] at hp
        rcases List.mem_cons.1 hp with h1 | h2
        · subst h1
          by_cases hv : v ∈ vs
          · simpa [hv] using hvs
          · simp only [if_neg hv]
            simp [List.nodup_append, hvs, hv]
        · exact hvtl p h2
      · simp only [insertFact, if_neg ht] at hp
        rcases List.mem_cons.1 hp with h1 | h2
        · subst h1; exact hvs
        · exact ih hvtl h2

theorem aggMem_insertFact {agg : List (String × List String)} {t v t₁ v₁ : String} :
    AggMem (insertFact agg t v) t₁ v₁ ↔ AggMem agg t₁ v₁ ∨ (t₁ = t ∧ v₁ = v) := by
  induction agg with
  | nil =>
    simp only [insertFact]
    constructor
    · rintro ⟨ws, hmem, hv⟩
      simp only [List.mem_singleton, Prod.mk.injEq] at hmem
      obtain ⟨h1, h2⟩ := hmem
      subst h1; subst h2
      simp only [List.mem_singleton] at hv
      exact Or.inr ⟨rfl, hv⟩
    · rintro (⟨ws, hmem, _⟩ | ⟨ht, hv⟩)
      · simp at hmem
      · exact ⟨[v], by simp [ht], by simp [hv]⟩
  | cons hd tl ih =>
    obtain ⟨t₀, vs⟩ := hd
    by_cases ht : t₀ = t
    · subst ht
      by_cases hv : v ∈ vs
      · have hins : insertFact ((t₀, vs) :: tl) t₀ v = (t₀, vs) :: tl := by
          simp [insertFact, hv]
        rw [hins, aggMem_cons]
        constructor
        · exact fun h => Or.inl h
        · rintro ((⟨h1, h2⟩ | h) | ⟨h1, h2⟩)
          · exact Or.inl ⟨h1, h2⟩
          · exact Or.inr h
          · exact Or.inl ⟨h1, by rw [h2]; exact hv⟩
      · have hins : insertFact ((t₀, vs) :: tl) t₀ v = (t₀, vs ++ [v]) :: tl := by
          simp [insertFact, hv]
        rw [hins, aggMem_cons, aggMem_cons]
        simp only [List.mem_append, List.mem_singleton]
        tauto
    · have hins : insertFact ((t₀, vs) :: tl) t v = (t₀, vs) :: insertFact tl t v := by
        simp [insertFact, ht]
      rw [hins, aggMem_cons, aggMem_cons, ih]
      tauto

theorem aggMem_keys {agg : List (String × List String)} {t v : String}
    (h : AggMem agg t v) : t ∈ agg.map Prod.fst := by
  obtain ⟨vs, hmem, _⟩ := h
  exact List.mem_map.2 ⟨(t, vs), hmem, rfl⟩

theorem mem_flattenAgg {agg : List (String × List String)} {f : Fact} :
    f ∈ flattenAgg agg ↔ AggMem agg f.type f.value ∧ f.confidence = none := by
  simp only [flattenAgg, List.mem_flatMap, List.mem_map, AggMem]
  constructor
  · rintro ⟨p, hp, v, hv, rfl⟩
    exact ⟨⟨p.2, by simpa using hp, hv⟩, rfl⟩
  · rintro ⟨⟨vs, hmem, hv⟩, hconf⟩
    refine ⟨(f.type, vs), hmem, f.value, hv, ?_⟩
    obtain ⟨ft, fv, fc⟩ := f
    simp only at hconf
    simp [hconf]

theorem nodup_flattenAgg {agg : List (String × List String)}
    (h : AggInv agg) : (flattenAgg agg).Nodup := by
  induction agg with
  | nil => simp [flattenAgg]
  | cons hd tl ih =>
    obtain ⟨t₀, vs⟩ := hd
    obtain ⟨hkeys, hvals⟩ := h
    simp only [List.map_cons, List.nodup_cons] at hkeys
    have htl : AggInv tl := ⟨hkeys.2, fun p hp => hvals p (List.mem_cons_of_mem _ hp)⟩
    have hvs : vs.Nodup := hvals (t₀, vs) (List.mem_cons_self _ _)
    show (vs.map _ ++ flattenAgg tl).Nodup
    rw [List.nodup_append]
    refine ⟨?_, ih htl, ?_⟩
    · exact hvs.map (fun a b hab => by simpa using hab)
    · intro f hf1 hf2
      have h1 : f.type = t₀ := by
        obtain ⟨v, _, rfl⟩ := List.mem_map.1 hf1
        rfl
      have h2 := aggMem_keys (mem_flattenAgg.1 hf2).1
      exact hkeys.1 (h1 ▸ h2)

theorem aggMem_foldl (rs : List RawResult) :
    ∀ (acc : List (String × List String)) (t v : String),
    AggMem (rs.foldl aggStep acc) t v ↔
      AggMem acc t v ∨ ((∃ c, RawResult.fact ⟨t, v, c⟩ ∈ rs) ∧ v ≠ "not_found") := by
  induction rs with
  | nil => simp
  | cons r rs ih =>
    intro acc t v
    rw [List.foldl_cons, ih]
    match r with
    | .str s =>
      show AggMem acc t v ∨ _ ↔ AggMem acc t v ∨ _
      constructor
      · rintro (h | ⟨⟨c, hc⟩, hv⟩)
        · exact Or.inl h
        · exact Or.inr ⟨⟨c, List.mem_cons_of_mem _ hc⟩, hv⟩
      · rintro (h | ⟨⟨c, hc⟩, hv⟩)
        · exact Or.inl h
        · rcases List.mem_cons.1 hc with h1 | h1
          · exact absurd h1 (by simp)
          · exact Or.inr ⟨⟨c, h1⟩, hv⟩
    | .malformed =>
      show AggMem acc t v ∨ _ ↔ AggMem acc t v ∨ _
      constructor
      · rintro (h | ⟨⟨c, hc⟩, hv⟩)
        · exact Or.inl h
        · exact Or.inr ⟨⟨c, List.mem_cons_of_mem _ hc⟩, hv⟩
      · rintro (h | ⟨⟨c, hc⟩, hv⟩)
        · exact Or.inl h
        · rcases List.mem_cons.1 hc with h1 | h1
          · exact absurd h1 (by simp)
          · exact Or.inr ⟨⟨c, h1⟩, hv⟩
    | .fact f =>
      by_cases hnf : f.value = "not_found"
      · simp only [aggStep, if_pos hnf]
        constructor
        · rintro (h | ⟨⟨c, hc⟩, hv⟩)
          · exact Or.inl h
          · exact Or.inr ⟨⟨c, List.mem_cons_of_mem _ hc⟩, hv⟩
        · rintro (h | ⟨⟨c, hc⟩, hv⟩)
          · exact Or.inl h
          · rcases List.mem_cons.1 hc with h1 | h1
            · exfalso
              apply hv
              have h2 : (⟨t, v, c⟩ : Fact) = f := by injection h1
              rw [show v = f.value from congrArg Fact.value h2, hnf]
            · exact Or.inr ⟨⟨c, h1⟩, hv⟩
      · simp only [aggStep, if_neg hnf, aggMem_insertFact]
        constructor
        · rintro ((h | ⟨h1, h2⟩) | ⟨⟨c, hc⟩, hv⟩)
          · exact Or.inl h
          · refine Or.inr ⟨⟨f.confidence, ?_⟩, by rw [h2]; exact hnf⟩
            have : RawResult.fact ⟨t, v, f.confidence⟩ = RawResult.fact f := by
              rw [h1, h2]
            rw [this]
            exact List.mem_cons_self _ _
          · exact Or.inr ⟨⟨c, List.mem_cons_of_mem _ hc⟩, hv⟩
        · rintro (h | ⟨⟨c, hc⟩, hv⟩)
          · exact Or.inl (Or.inl h)
          · rcases List.mem_cons.1 hc with h1 | h1
            · have h2 : (⟨t, v, c⟩ : Fact) = f := by injection h1
              exact Or.inl (Or.inr ⟨congrArg Fact.type h2, congrArg Fact.value h2⟩)
            · exact Or.inr ⟨⟨c, h1⟩, hv⟩

theorem aggInv_foldl (rs : List RawResult) :
    ∀ acc : List (String × List String), AggInv acc → AggInv (rs.foldl aggStep acc) := by
  induction rs with
  | nil => intro acc h; simpa using h
  | cons r rs ih =>
    intro acc h
    rw [List.foldl_cons]
    refine ih _ ?_
    match r with
    | .str s => exact h
    | .malformed => exact h
    | .fact f =>
      by_cases hnf : f.value = "not_found"
      · simpa [aggStep, hnf] using h
      · simpa [aggStep, hnf] using insertFact_inv h

/-- Characterisation of `ResultAggregator.aggregate`: a fact appears in the
    output iff a well-formed input fact carried the same type and value (with
    any confidence) and the value is not the `'not_found'` placeholder; the
    output dicts carry no confidence. -/
theorem mem_aggregate {rs : List RawResult} {f : Fact} :
    f ∈ aggregate rs ↔
      (∃ c, RawResult.fact ⟨f.type, f.value, c⟩ ∈ rs) ∧
      f.value ≠ "not_found" ∧ f.confidence = none := by
  rw [aggregate, mem_flattenAgg, aggMem_foldl]
  simp only [AggMem, List.not_mem_nil, false_and, exists_false, false_or]
  tauto

/-- The output of `ResultAggregator.aggregate` is duplicate-free. -/
theorem nodup_aggregate (rs : List RawResult) : (aggregate rs).Nodup :=
  nodup_flattenAgg (aggInv_foldl rs [] ⟨by simp, by simp⟩)

/-- Outcome of calling an extractor's `extract` method on a string: a list of
    fact dicts, or a raised exception carrying a message. -/
inductive ExtractOutcome where
  | facts (fs : List Fact)
  | raises (msg : String)

/-- The behaviour of one extractor's `extract` method, as an oracle over the
    input text. -/
def ExtractorFn : Type := String → ExtractOutcome

/-- `MIN_QUERY_LENGTH` (`extractors.py` line 17). -/
def MIN_QUERY_LENGTH : ℕ := 3

/-- `BaseExtractor.safe_extract` (`extractors.py` lines 53-64), with
    `typeName` standing for `self.__class__.__name__.replace('Extractor', '').lower()`.
    On an exception the Python method returns the `content` string itself; the
    callers extend a Python list with that return value, and extending a list
    with a string appends its characters one by one, so that case is modelled
    as the list of single-character string items the caller receives. -/
def safe_extract (typeName : String) (ext : ExtractorFn) (content : String) : List RawResult :=
  if content.length < MIN_QUERY_LENGTH then
    [.fact { type := typeName, value := "not_found", confidence := none }]
  else
    match ext content with
    | .facts fs => fs.map .fact
    | .raises _ => content.toList.map (fun c => .str (String.singleton c))

example : safe_extract "email" (fun _ => .facts []) "ab"
    = [.fact ⟨"email", "not_found", none⟩] := by rfl

example : safe_extract "email" (fun _ => .raises "boom") "abc"
    = [.str "a", .str "b", .str "c"] := by rfl

/-- C1 counterexample (the claim as stated is false): merging two facts of the
    same (type, value) with confidences 0.6 and 0.9 yields one result, but that
    result carries no confidence at all (`aggregate` strips confidence), not
    the maximum 0.9. -/
theorem aggregate_maxconf_counterexample :
    aggregate [.fact ⟨"email", "a@b.c", some (6/10)⟩,
               .fact ⟨"email", "a@b.c", some (9/10)⟩]
      = [{ type := "email", value := "a@b.c", confidence := none }]
    ∧ Fact.confidence { type := "email", value := "a@b.c", confidence := none }
        ≠ some (9/10) := by
  refine ⟨rfl, ?_⟩
  simp

/-- C1 (amended): aggregation returns exactly one result per distinct
    (type, value) pair among the well-formed input facts whose value is not the
    `'not_found'` placeholder — values compared by exact case-sensitive string
    equality — but the returned results carry no confidence field at all
    (the input facts' confidences, maximal or otherwise, are discarded). -/
theorem aggregate_dedup_dropped_confidence
    (rs : List RawResult) (t v : String) (c : Option ℚ)
    (hnf : v ≠ "not_found") (hmem : RawResult.fact ⟨t, v, c⟩ ∈ rs) :
    (aggregate rs).count ⟨t, v, none⟩ = 1
    ∧ ∀ f ∈ aggregate rs, f.confidence = none := by
  constructor
  · refine List.count_eq_one_of_mem (nodup_aggregate rs) ?_
    exact mem_aggregate.2 ⟨⟨c, hmem⟩, hnf, rfl⟩
  · intro f hf
    exact (mem_aggregate.1 hf).2.2

/-- Witness for C1's amended theorem at a concrete input. -/
theorem aggregate_dedup_dropped_confidence_witness :
    (aggregate [.fact ⟨"email", "a@b.c", some (6/10)⟩,
                .fact ⟨"email", "a@b.c", some (9/10)⟩]).count ⟨"email", "a@b.c", none⟩ = 1
    ∧ ∀ f ∈ aggregate [.fact ⟨"email", "a@b.c", some (6/10)⟩,
                       .fact ⟨"email", "a@b.c", some (9/10)⟩], f.confidence = none :=
  aggregate_dedup_dropped_confidence _ "email" "a@b.c" (some (6/10))
    (by decide) (List.mem_cons_self _ _)

/-- C9: an extractor invoked on empty content or content shorter than
    `MIN_QUERY_LENGTH = 3` characters emits the single placeholder fact with
    value `'not_found'`, yet the aggregator filters every `'not_found'` value
    out, so no aggregated result ever carries that placeholder value. -/
theorem not_found_placeholder_never_aggregated :
    (∀ (typeName : String) (ext : ExtractorFn) (content : String),
        content.length < MIN_QUERY_LENGTH →
        safe_extract typeName ext content
          = [.fact { type := typeName, value := "not_found", confidence := none }])
    ∧ ∀ (rs : List RawResult) (f : Fact), f ∈ aggregate rs → f.value ≠ "not_found" := by
  constructor
  · intro typeName ext content h
    simp [safe_extract, h]
  · intro rs f hf
    exact (mem_aggregate.1 hf).2.1

/-- Witness for C9 at concrete inputs: short content yields the placeholder,
    and a concrete aggregated result is not `'not_found'`. -/
theorem not_found_placeholder_never_aggregated_witness :
    safe_extract "email" (fun _ => ExtractOutcome.facts []) "ab"
      = [.fact { type := "email", value := "not_found", confidence := none }]
    ∧ Fact.value ⟨"email", "a@b.c", none⟩ ≠ "not_found" :=
  ⟨not_found_placeholder_never_aggregated.1 "email" (fun _ => ExtractOutcome.facts []) "ab"
      (by decide),
   not_found_placeholder_never_aggregated.2 [.fact ⟨"email", "a@b.c", some 1⟩]
      ⟨"email", "a@b.c", none⟩ (by decide)⟩

/-- One anchor of `parsed_content['links']`: its text and its `href`. -/
structure PageLink where
  text : String
  href : String
deriving DecidableEq, Repr

/-- The dict produced by `HTMLParser.parse`: the page text, the metadata
    contents (already joined to one string by `convert_to_string`, which is how
    `extract_from_parsed_content` consumes them), and the anchors. -/
structure PageContent where
  text : String
  meta : String
  links : List PageLink
deriving Repr

/-- `ContactInfoExtractor.extract_from_parsed_content` (`extractors.py`
    lines 552-571) for one extractor: `safe_extract` over the page text, the
    metadata and each anchor text, plus the direct promotion of `mailto:`
    hrefs to email facts with confidence 1.0 when the extractor is the
    `EmailExtractor`. -/
def extract_from_parsed_content (typeName : String) (ext : ExtractorFn)
    (isEmail : Bool) (pc : PageContent) : List RawResult :=
  safe_extract typeName ext pc.text
  ++ safe_extract typeName ext pc.meta
  ++ pc.links.flatMap (fun link =>
      safe_extract typeName ext link.text
      ++ (if isEmail && link.href.startsWith "mailto:" then
            [.fact { type := "email", value := link.href.drop 7, confidence := some 1 }]
          else []))

/-- The status dict built by `ContactInfoExtractor.extract_contact_info`
    (`extractors.py` lines 484-545). -/
structure Status where
  url : String
  status : String
  errors : List String
  warnings : List String
  extracted_info : List Fact
deriving DecidableEq, Repr

/-- The behaviours of the fallible collaborators of one
    `extract_contact_info` call: the outcome of `HTMLParser.parse` on this
    page's html (an uncaught exception there reaches the method's outer
    `except` handler), the outcome of the `ContextualExtractor` (whose
    exception is caught locally and turned into a warning), and the three
    extractors run over the parsed content. -/
structure ExtractEnv where
  parse : Except String PageContent
  contextual : Except String (List RawResult)
  eEmail : ExtractorFn
  eName : ExtractorFn
  eTitle : ExtractorFn

/-- `ContactInfoExtractor.extract_contact_info` (`extractors.py` lines
    484-545): builds the status record; empty html is an early success with a
    warning; a parse failure reaches the outer `except` and flips the status
    to `'failure'` with the message appended to `errors`; otherwise the
    contextual extractor runs (exception → warning), then the email, name and
    title extractors run over the parsed content, the well-formed fact dicts
    are filtered out of the raw results and aggregated. -/
def extract_contact_info (url : String) (html : String) (env : ExtractEnv) : Status :=
  let status0 : Status :=
    { url := url, status := "success", errors := [], warnings := [], extracted_info := [] }
  if html = "" then
    { status0 with warnings := ["Empty HTML content"] }
  else
    match env.parse with
    | .error e => { status0 with status := "failure", errors := [e] }
    | .ok pc =>
      let ctx : List RawResult × List String :=
        match env.contextual with
        | .ok rs => (rs, [])
        | .error e => ([], ["Contextual Extraction failed: " ++ e])
      let results := ctx.1
        ++ extract_from_parsed_content "email" env.eEmail true pc
        ++ extract_from_parsed_content "name" env.eName false pc
        ++ extract_from_parsed_content "title" env.eTitle false pc
      let valid_results := results.filter isFactItem
      { status0 with warnings := ctx.2, extracted_info := aggregate valid_results }

/-- An extractor whose `extract` raises on every input contributes, after the
    well-formedness filter, exactly what an extractor returning no facts
    contributes. -/
theorem filter_safe_extract_raises (typeName : String) (ext : ExtractorFn)
    (msg : String → String) (hfail : ∀ s, ext s = .raises (msg s)) (content : String) :
    (safe_extract typeName ext content).filter isFactItem
      = (safe_extract typeName (fun _ => .facts []) content).filter isFactItem := by
  unfold safe_extract
  by_cases h : content.length < MIN_QUERY_LENGTH
  · simp [h]
  · simp only [if_neg h, hfail]
    simp [List.filter_map, isFactItem, Function.comp]

theorem filter_efpc_raises (typeName : String) (ext : ExtractorFn)
    (msg : String → String) (hfail : ∀ s, ext s = .raises (msg s))
    (isEmail : Bool) (pc : PageContent) :
    (extract_from_parsed_content typeName ext isEmail pc).filter isFactItem
      = (extract_from_parsed_content typeName (fun _ => .facts []) isEmail pc).filter
          isFactItem := by
  unfold extract_from_parsed_content
  simp only [List.filter_append]
  rw [filter_safe_extract_raises typeName ext msg hfail,
      filter_safe_extract_raises typeName ext msg hfail]
  congr 1
  induction pc.links with
  | nil => simp
  | cons lk lks ih =>
    simp only [List.flatMap_cons, List.filter_append, ih]
    rw [filter_safe_extract_raises typeName ext msg hfail]

theorem ecis_email_raises (url html : String) (env : ExtractEnv)
    (msg : String → String) (hfail : ∀ s, env.eEmail s = .raises (msg s)) :
    extract_contact_info url html env
      = extract_contact_info url html
          { env with eEmail := fun _ => ExtractOutcome.facts [] } := by
  obtain ⟨parseO, ctxO, e1, e2, e3⟩ := env
  simp only at hfail
  unfold extract_contact_info
  by_cases h : html = ""
  · simp [h]
  · simp only [if_neg h]
    cases parseO with
    | error e => rfl
    | ok pc =>
      dsimp only
      congr 1
      simp only [List.filter_append]
      rw [filter_efpc_raises "email" e1 msg hfail true pc]

theorem ecis_name_raises (url html : String) (env : ExtractEnv)
    (msg : String → String) (hfail : ∀ s, env.eName s = .raises (msg s)) :
    extract_contact_info url html env
      = extract_contact_info url html
          { env with eName := fun _ => ExtractOutcome.facts [] } := by
  obtain ⟨parseO, ctxO, e1, e2, e3⟩ := env
  simp only at hfail
  unfold extract_contact_info
  by_cases h : html = ""
  · simp [h]
  · simp only [if_neg h]
    cases parseO with
    | error e => rfl
    | ok pc =>
      dsimp only
      congr 1
      simp only [List.filter_append]
      rw [filter_efpc_raises "name" e2 msg hfail false pc]

theorem ecis_title_raises (url html : String) (env : ExtractEnv)
    (msg : String → String) (hfail : ∀ s, env.eTitle s = .raises (msg s)) :
    extract_contact_info url html env
      = extract_contact_info url html
          { env with eTitle := fun _ => ExtractOutcome.facts [] } := by
  obtain ⟨parseO, ctxO, e1, e2, e3⟩ := env
  simp only at hfail
  unfold extract_contact_info
  by_cases h : html = ""
  · simp [h]
  · simp only [if_neg h]
    cases parseO with
    | error e => rfl
    | ok pc =>
      dsimp only
      congr 1
      simp only [List.filter_append]
      rw [filter_efpc_raises "title" e3 msg hfail false pc]

theorem ecis_contextual_raises (url html : String) (env : ExtractEnv)
    (e : String) (hfail : env.contextual = .error e) :
    (extract_contact_info url html env).extracted_info
      = (extract_contact_info url html
          { env with contextual := .ok [] }).extracted_info
    ∧ (extract_contact_info url html env).status
      = (extract_contact_info url html
          { env with contextual := .ok [] }).status := by
  obtain ⟨parseO, ctxO, e1, e2, e3⟩ := env
  simp only at hfail
  subst hfail
  unfold extract_contact_info
  by_cases h : html = ""
  · simp [h]
  · simp only [if_neg h]
    cases parseO with
    | error e0 => exact ⟨rfl, rfl⟩
    | ok pc => exact ⟨rfl, rfl⟩

/-- C3: a failing extractor is local — whichever of the email, name or title
    extractors raises on every input, the page run produces exactly the same
    status record (same success status, same warnings, same aggregated facts)
    as the run in which that extractor returns zero facts; a contextual
    extractor that raises likewise leaves the status and the aggregated facts
    those of the run in which it contributed nothing.  The remaining
    extractors therefore still contribute, and `extract_contact_info`
    completes and returns a result (it is a total function) instead of
    propagating the exception. -/
theorem extractor_failure_is_local :
    (∀ (url html : String) (env : ExtractEnv) (msg : String → String),
      (∀ s, env.eEmail s = .raises (msg s)) →
      extract_contact_info url html env
        = extract_contact_info url html
            { env with eEmail := fun _ => ExtractOutcome.facts [] })
    ∧ (∀ (url html : String) (env : ExtractEnv) (msg : String → String),
      (∀ s, env.eName s = .raises (msg s)) →
      extract_contact_info url html env
        = extract_contact_info url html
            { env with eName := fun _ => ExtractOutcome.facts [] })
    ∧ (∀ (url html : String) (env : ExtractEnv) (msg : String → String),
      (∀ s, env.eTitle s = .raises (msg s)) →
      extract_contact_info url html env
        = extract_contact_info url html
            { env with eTitle := fun _ => ExtractOutcome.facts [] })
    ∧ ∀ (url html : String) (env : ExtractEnv) (e : String),
        env.contextual = .error e →
        (extract_contact_info url html env).extracted_info
          = (extract_contact_info url html
              { env with contextual := .ok [] }).extracted_info
        ∧ (extract_contact_info url html env).status
          = (extract_contact_info url html
              { env with contextual := .ok [] }).status :=
  ⟨ecis_email_raises, ecis_name_raises, ecis_title_raises, ecis_contextual_raises⟩

/-- The concrete environment of the C3 witness: the name extractor raises on
    every input while the others run normally. -/
def envC3 : ExtractEnv :=
  { parse := .ok { text := "Jane Doe jane@x.co", meta := "", links := [⟨"Contact", "mailto:j@x.co"⟩] },
    contextual := .ok [],
    eEmail := fun _ => .facts [⟨"email", "jane@x.co", none⟩],
    eName := fun _ => .raises "boom",
    eTitle := fun _ => .facts [] }

/-- Witness for C3 at a concrete page and extractor set. -/
theorem extractor_failure_is_local_witness :
    extract_contact_info "http://x.co" "<p>Jane</p>" envC3
      = extract_contact_info "http://x.co" "<p>Jane</p>"
          { envC3 with eName := fun _ => ExtractOutcome.facts [] } :=
  extractor_failure_is_local.2.1 "http://x.co" "<p>Jane</p>" envC3 (fun _ => "boom")
    (fun _ => rfl)

/-- C10: `extract_contact_info` is total at its boundary — for every url and
    html it returns the status record (with its url, status, errors, warnings
    and extracted_info fields) rather than propagating an exception; its
    status is always `'success'` or `'failure'`; and when an internal step
    fails catastrophically (an exception reaching the outer handler, modelled
    by the parse outcome) it returns the record with status `'failure'`, the
    error message appended to `errors`, and `extracted_info` left empty. -/
theorem extract_contact_info_total_boundary (url html : String) (env : ExtractEnv) :
    (extract_contact_info url html env).url = url
    ∧ ((extract_contact_info url html env).status = "success"
        ∨ (extract_contact_info url html env).status = "failure")
    ∧ ∀ e, env.parse = .error e → html ≠ "" →
        (extract_contact_info url html env).status = "failure"
        ∧ (extract_contact_info url html env).errors = [e]
        ∧ (extract_contact_info url html env).extracted_info = [] := by
  obtain ⟨parseO, ctxO, e1, e2, e3⟩ := env
  by_cases h : html = ""
  · refine ⟨by simp [extract_contact_info, h], Or.inl (by simp [extract_contact_info, h]), ?_⟩
    intro e _ habs
    exact absurd h habs
  · cases parseO with
    | error e0 =>
      refine ⟨by simp [extract_contact_info, h], Or.inr (by simp [extract_contact_info, h]), ?_⟩
      intro e he _
      simp only [Except.error.injEq] at he
      subst he
      exact ⟨by simp [extract_contact_info, h], by simp [extract_contact_info, h],
             by simp [extract_contact_info, h]⟩
    | ok pc =>
      refine ⟨by simp [extract_contact_info, h], Or.inl (by simp [extract_contact_info, h]), ?_⟩
      intro e he
      simp at he

/-- The concrete environment of the C10 witness: parsing the page raises. -/
def envC10 : ExtractEnv :=
  { parse := .error "boom", contextual := .ok [],
    eEmail := fun _ => .facts [], eName := fun _ => .facts [],
    eTitle := fun _ => .facts [] }

/-- Witness for C10 at a concrete input whose parse step fails. -/
theorem extract_contact_info_total_boundary_witness :
    (extract_contact_info "http://x.co" "<p>" envC10).status = "failure"
    ∧ (extract_contact_info "http://x.co" "<p>" envC10).errors = ["boom"]
    ∧ (extract_contact_info "http://x.co" "<p>" envC10).extracted_info = [] :=
  (extract_contact_info_total_boundary "http://x.co" "<p>" envC10).2.2 "boom" rfl
    (by decide)

/-- What one iteration of the `fetch_html` retry loop (`async_engine.py`
    lines 77-115) observes for a given attempt: DNS resolution fails
    (`socket.gaierror`), an HTTP response with some status code and body
    arrives, or the request raises one of the caught exception classes. -/
inductive AttemptOutcome where
  | dnsFail
  | response (status : ℕ) (body : String)
  | connError (msg : String)
  | clientError (msg : String)
  | timeoutErr
  | otherError (msg : String)

/-- The observable trace of one `fetch_html` call: the returned value
    (`None` is `none`), how many attempts were made, and the list of backoff
    waits performed between consecutive attempts, in seconds and in order. -/
structure FetchTrace where
  result : Option String
  attempts : ℕ
  waits : List ℕ
deriving DecidableEq, Repr

/-- The `while retries < max_retries` loop of `AsyncScraper.fetch_html`,
    structurally recursing on the remaining iterations
    `fuel = max_retries - retries`.  A DNS failure returns `None` at once; a
    200 response returns its body; every other outcome — any non-200 HTTP
    status as well as every caught exception — falls through to
    `retries += 1` followed by a `2 ** retries` second sleep whenever another
    iteration remains. -/
def fetchGo (outcomes : ℕ → AttemptOutcome) : ℕ → ℕ → FetchTrace
  | retries, 0 => { result := none, attempts := retries, waits := [] }
  | retries, fuel + 1 =>
    let failure : FetchTrace :=
      let rest := fetchGo outcomes (retries + 1) fuel
      if 0 < fuel then { rest with waits := 2 ^ (retries + 1) :: rest.waits } else rest
    match outcomes retries with
    | .dnsFail => { result := none, attempts := retries + 1, waits := [] }
    | .response code body =>
      if code = 200 then { result := some body, attempts := retries + 1, waits := [] }
      else failure
    | _ => failure

/-- `AsyncScraper.fetch_html` with a given `max_retries` (the source default
    is 3), starting from `retries = 0`. -/
def fetch_html (outcomes : ℕ → AttemptOutcome) (maxRetries : ℕ) : FetchTrace :=
  fetchGo outcomes 0 maxRetries

example : fetch_html (fun _ => .response 200 "hi") 3
    = { result := some "hi", attempts := 1, waits := [] } := by rfl

example : fetch_html (fun _ => .dnsFail) 3
    = { result := none, attempts := 1, waits := [] } := by rfl

example : fetch_html (fun _ => .timeoutErr) 3
    = { result := none, attempts := 3, waits := [2, 4] } := by rfl

example : fetch_html (fun _ => .response 404 "nf") 3
    = { result := none, attempts := 3, waits := [2, 4] } := by rfl

/-- Every outcome other than a DNS failure or a 200 response takes the
    `retries += 1` path of the loop. -/
def goesToRetry : AttemptOutcome → Bool
  | .dnsFail => false
  | .response code _ => code != 200
  | .connError _ => true
  | .clientError _ => true
  | .timeoutErr => true
  | .otherError _ => true

/-- One loop iteration whose outcome takes the retry path increments the
    retry counter and, when another iteration remains, performs the
    `2 ** retries` backoff wait. -/
theorem fetchGo_retry_step (outcomes : ℕ → AttemptOutcome) (retries fuel : ℕ)
    (h0 : goesToRetry (outcomes retries) = true) :
    fetchGo outcomes retries (fuel + 1)
      = (if 0 < fuel then
           { fetchGo outcomes (retries + 1) fuel with
             waits := 2 ^ (retries + 1) :: (fetchGo outcomes (retries + 1) fuel).waits }
         else fetchGo outcomes (retries + 1) fuel) := by
  cases h : outcomes retries with
  | dnsFail => rw [h] at h0; simp [goesToRetry] at h0
  | response code body =>
    have hcode : code ≠ 200 := by
      rw [h] at h0
      simpa [goesToRetry] using h0
    simp [fetchGo, h, hcode]
  | connError m => simp [fetchGo, h]
  | clientError m => simp [fetchGo, h]
  | timeoutErr => simp [fetchGo, h]
  | otherError m => simp [fetchGo, h]

/-- When every attempt takes the retry path, the loop exhausts its
    iterations: `fuel` attempts in total, `None` returned, and one backoff
    wait of `2 ^ (retries + 1 + i)` seconds after each non-final attempt. -/
theorem fetchGo_all_retry (outcomes : ℕ → AttemptOutcome) :
    ∀ (fuel retries : ℕ),
    (∀ i, i < fuel → goesToRetry (outcomes (retries + i)) = true) →
    fetchGo outcomes retries fuel
      = { result := none, attempts := retries + fuel,
          waits := (List.range (fuel - 1)).map (fun i => 2 ^ (retries + 1 + i)) } := by
  intro fuel
  induction fuel with
  | zero => intro retries _; simp [fetchGo]
  | succ fuel ih =>
    intro retries h
    rw [fetchGo_retry_step outcomes retries fuel (by simpa using h 0 (Nat.succ_pos _))]
    rw [ih (retries + 1) (fun i hi => by
      rw [show retries + 1 + i = retries + (i + 1) by omega]
      exact h (i + 1) (by omega))]
    cases fuel with
    | zero => simp
    | succ fuel' =>
      rw [if_pos (Nat.succ_pos _)]
      simp only [FetchTrace.mk.injEq]
      refine ⟨trivial, by omega, ?_⟩
      rw [show fuel' + 1 + 1 - 1 = fuel' + 1 by omega,
          show fuel' + 1 - 1 = fuel' by omega,
          List.range_succ_eq_map, List.map_cons, List.map_map]
      simp only [List.cons.injEq]
      constructor
      · norm_num
      · congr 1
        funext i
        simp only [Function.comp_apply]
        congr 1
        omega

/-- C2 counterexample (the claim as stated is false): a fetch that receives
    HTTP 404 on every attempt is not terminal after the first response — the
    loop retries it, making all 3 attempts with backoff waits of 2 and 4
    seconds before giving up. -/
theorem http_error_no_retry_counterexample :
    (fetch_html (fun _ => .response 404 "nf") 3).attempts = 3
    ∧ (fetch_html (fun _ => .response 404 "nf") 3).waits = [2, 4]
    ∧ (fetch_html (fun _ => .response 404 "nf") 3).result = none :=
  ⟨rfl, rfl, rfl⟩

/-- C2 (amended): a non-200 HTTP status is not returned terminally; like a
    connection failure or timeout it falls through to the retry path, so a URL
    answering with non-200 statuses on every attempt is fetched `maxRetries`
    times and then yields `None`. -/
theorem http_error_retried (outcomes : ℕ → AttemptOutcome) (m : ℕ)
    (h : ∀ i, i < m → ∃ code body, outcomes i = .response code body ∧ code ≠ 200) :
    (fetch_html outcomes m).result = none ∧ (fetch_html outcomes m).attempts = m := by
  have hall : ∀ i, i < m → goesToRetry (outcomes (0 + i)) = true := by
    intro i hi
    obtain ⟨code, body, hout, hcode⟩ := h i hi
    rw [Nat.zero_add, hout]
    simpa [goesToRetry] using hcode
  rw [fetch_html, fetchGo_all_retry outcomes m 0 hall]
  exact ⟨rfl, by simp⟩

/-- Witness for C2's amended theorem at a concrete outcome sequence. -/
theorem http_error_retried_witness :
    (fetch_html (fun _ => .response 500 "err") 3).result = none
    ∧ (fetch_html (fun _ => .response 500 "err") 3).attempts = 3 :=
  http_error_retried (fun _ => .response 500 "err") 3
    (fun _ _ => ⟨500, "err", rfl, by decide⟩)

/-- C6: a URL whose domain fails DNS resolution yields `None` immediately
    after a single attempt with no retries and no waits; a URL failing with
    timeouts or connection errors is attempted up to `maxRetries` times, the
    waits between consecutive attempts are exactly `2 ^ attempt` seconds
    (`2 ^ 1, 2 ^ 2, ...`), hence strictly increasing. -/
theorem dns_no_retry_and_backoff_increasing :
    (∀ (outcomes : ℕ → AttemptOutcome) (m : ℕ), 0 < m → outcomes 0 = .dnsFail →
        fetch_html outcomes m = { result := none, attempts := 1, waits := [] })
    ∧ ∀ (outcomes : ℕ → AttemptOutcome) (m : ℕ),
        (∀ i, i < m → outcomes i = .timeoutErr ∨ ∃ msg, outcomes i = .connError msg) →
        (fetch_html outcomes m).result = none
        ∧ (fetch_html outcomes m).attempts = m
        ∧ (fetch_html outcomes m).waits = (List.range (m - 1)).map (fun i => 2 ^ (i + 1))
        ∧ List.Pairwise (· < ·) (fetch_html outcomes m).waits := by
  constructor
  · intro outcomes m hm hdns
    obtain ⟨k, rfl⟩ := Nat.exists_eq_add_of_lt hm
    simp only [Nat.zero_add]
    simp [fetch_html, fetchGo, hdns]
  · intro outcomes m h
    have hall : ∀ i, i < m → goesToRetry (outcomes (0 + i)) = true := by
      intro i hi
      rcases h i hi with h1 | ⟨msg, h1⟩ <;>
        rw [Nat.zero_add, h1] <;> rfl
    rw [fetch_html, fetchGo_all_retry outcomes m 0 hall]
    have hw : (List.range (m - 1)).map (fun i => 2 ^ (0 + 1 + i))
        = (List.range (m - 1)).map (fun i => 2 ^ (i + 1)) := by
      congr 1
      funext i
      congr 1
      omega
    refine ⟨rfl, by simp, hw, ?_⟩
    rw [hw]
    refine List.Pairwise.map _ (fun a b hab => ?_) (List.pairwise_lt_range (m - 1))
    exact Nat.pow_lt_pow_right one_lt_two (by omega)

/-- Witness for C6 at concrete outcome sequences. -/
theorem dns_no_retry_and_backoff_increasing_witness :
    fetch_html (fun _ => AttemptOutcome.dnsFail) 3
      = { result := none, attempts := 1, waits := [] }
    ∧ (fetch_html (fun _ => AttemptOutcome.timeoutErr) 3).waits
        = (List.range 2).map (fun i => 2 ^ (i + 1)) :=
  ⟨dns_no_retry_and_backoff_increasing.1 _ 3 (by decide) rfl,
   (dns_no_retry_and_backoff_increasing.2 (fun _ => AttemptOutcome.timeoutErr) 3
      (fun _ _ => Or.inl rfl)).2.2.1⟩

/-- A URL as decomposed by `urllib.parse.urlparse`: scheme, network location
    (domain), path and query.  Two URLs are equal exactly when all four
    components are equal, matching equality of the raw URL strings the async
    engine passes around (`urljoin` is modelled by supplying links as already
    absolute URLs). -/
structure Url where
  scheme : String
  netloc : String
  path : String
  query : String
deriving DecidableEq, Repr

/-- Python's `str.lower()`, on the character list of the string. -/
def lowerChars (s : String) : List Char := s.toList.map Char.toLower

/-- The URL identity of `urls.py` (`Url.normalized`, lines 27-37): the
    lower-cased (domain, path) pair; scheme and query are discarded, so
    `http` vs `https` and query-string variants of the same host+path share
    one identity. -/
def urlIdentity (u : Url) : List Char × List Char := (lowerChars u.netloc, lowerChars u.path)

/-- `self.relevant_keywords` (`async_engine.py` lines 23-32). -/
def relevant_keywords : List String :=
  ["our-story", "join-us", "company-info", "about-company", "employees",
   "get-in-touch", "people", "divisions", "team", "board", "contact-us",
   "directors", "leadership", "about-team", "history", "social",
   "departments", "news", "reach-us", "offices", "executives", "work-with-us",
   "awards", "directory", "company", "what-we-do", "media", "careers",
   "meet-the-team", "press", "corporate", "insights", "staff", "publications",
   "events", "blog", "support", "founder", "who-we-are", "management",
   "about-us", "mission", "locations", "values", "help", "our-team", "contact"]

/-- Is the first character list a prefix of the second? -/
def charsPrefix : List Char → List Char → Bool
  | [], _ => true
  | _ :: _, [] => false
  | a :: as, b :: bs => a == b && charsPrefix as bs

/-- Does the needle occur contiguously inside the haystack? -/
def charsInfix (needle : List Char) : List Char → Bool
  | [] => charsPrefix needle []
  | b :: bs => charsPrefix needle (b :: bs) || charsInfix needle bs

/-- Python's `needle in hay` substring test, on lower-cased haystacks. -/
def strContainsSub (hay : List Char) (needle : String) : Bool :=
  charsInfix needle.toList hay

example : strContainsSub (lowerChars "/About-Us/Team") "team" = true := by decide
example : strContainsSub (lowerChars "/privacy") "team" = false := by decide

/-- `AsyncScraper.calculate_relevance_score` (`async_engine.py` lines
    136-153): +5 when the lower-cased URL path contains a relevant keyword,
    +3 when the lower-cased anchor text contains one, plus
    `max(0, 3 - path.count('/'))` to favour shallow paths. -/
def calculate_relevance_score (linkText : String) (u : Url) : ℤ :=
  let relevance_score : ℤ := 0
  let url_path := lowerChars u.path
  let relevance_score :=
    if relevant_keywords.any (fun keyword => strContainsSub url_path keyword)
    then relevance_score + 5 else relevance_score
  let link_text := lowerChars linkText
  let relevance_score :=
    if relevant_keywords.any (fun keyword => strContainsSub link_text keyword)
    then relevance_score + 3 else relevance_score
  let path_depth : ℤ := url_path.count '/'
  relevance_score + max 0 (3 - path_depth)

example : calculate_relevance_score "Our Team" ⟨"http", "ex.com", "/team", ""⟩ = 10 := by
  decide
example : calculate_relevance_score "x" ⟨"http", "ex.com", "/a/b/c/d", ""⟩ = 0 := by
  decide

/-- C8: the relevance score of a discovered link is exactly the sum of the
    keyword bonus for the URL path (5), the keyword bonus for the anchor text
    (3) and the shallowness bonus `max(0, 3 - slashes-in-path)` — nothing else
    contributes. -/
theorem relevance_score_is_sum (linkText : String) (u : Url) :
    calculate_relevance_score linkText u =
      (if relevant_keywords.any (fun keyword => strContainsSub (lowerChars u.path) keyword)
       then (5 : ℤ) else 0)
      + (if relevant_keywords.any (fun keyword => strContainsSub (lowerChars linkText) keyword)
         then (3 : ℤ) else 0)
      + max 0 (3 - ((lowerChars u.path).count '/' : ℤ)) := by
  simp only [calculate_relevance_score]
  split_ifs <;> ring

/-- `AsyncScraper.is_valid_url` (`async_engine.py` lines 117-120): the
    candidate's domain must equal the reference URL's domain and the exact
    candidate must not already be in `seen_urls` (a set of raw URLs, compared
    by full equality). -/
def is_valid_url (ref u : Url) (seen : List Url) : Bool :=
  decide (ref.netloc = u.netloc) && decide (u ∉ seen)

theorem is_valid_url_iff {ref u : Url} {seen : List Url} :
    is_valid_url ref u seen = true ↔ ref.netloc = u.netloc ∧ u ∉ seen := by
  simp [is_valid_url]

/-- An item of the `asyncio.PriorityQueue`: `(priority, url, depth)`. -/
structure QItem where
  priority : ℤ
  url : Url
  depth : ℕ
deriving DecidableEq, Repr

/-- The static description of the web the crawl runs against, plus the crawl
    configuration: `pages u` is the fetch outcome for `u` — `none` when
    `fetch_html` returns `None`, otherwise the page's anchors as
    (text, absolute URL after `urljoin`) pairs. -/
structure CrawlConfig where
  maxDepth : ℕ
  maxPages : ℕ
  pages : Url → Option (List (String × Url))

/-- `AsyncScraper.enqueue_related_urls` (`async_engine.py` lines 122-134):
    guarded by the depth and page budgets, each discovered link that passes
    `is_valid_url` against the page it was found on and scores positively is
    turned into a queue item with priority `100 - score` and the parent's
    depth plus one. -/
def enqueue_related_urls (cfg : CrawlConfig) (links : List (String × Url))
    (base : Url) (depth : ℕ) (seen : List Url) : List QItem :=
  if cfg.maxDepth ≤ depth ∨ cfg.maxPages ≤ seen.length then []
  else links.filterMap (fun lk =>
    if is_valid_url base lk.2 seen then
      if 0 < calculate_relevance_score lk.1 lk.2 then
        some ⟨100 - calculate_relevance_score lk.1 lk.2, lk.2, depth + 1⟩
      else none
    else none)

/-- Insertion into the priority queue, keeping items sorted by ascending
    priority so that the head is the next item `get` returns (the numerically
    smallest priority is dequeued first; order among equal priorities is
    immaterial to the properties proved here). -/
def pqInsert (item : QItem) : List QItem → List QItem
  | [] => [item]
  | q :: rest => if q.priority ≤ item.priority then q :: pqInsert item rest
                 else item :: q :: rest

/-- The `while not queue.empty()` loop of `AsyncScraper.scrape`
    (`async_engine.py` lines 37-75), recursing on explicit fuel.  Each
    iteration pops the head item; items beyond the depth or page budget are
    skipped; a valid unseen same-domain URL is added to `seen_urls` and
    fetched; on a successful fetch with remaining depth its links are
    enqueued.  The loop's trace accumulates the fetched URLs (in fetch order)
    and every item ever pushed onto the queue. -/
def crawlLoop (cfg : CrawlConfig) (start : Url) :
    ℕ → List QItem → List Url → List Url → List QItem → List Url × List QItem
  | 0, _, _, fetched, pushed => (fetched, pushed)
  | _ + 1, [], _, fetched, pushed => (fetched, pushed)
  | fuel + 1, item :: rest, seen, fetched, pushed =>
    if cfg.maxDepth < item.depth ∨ cfg.maxPages ≤ seen.length then
      crawlLoop cfg start fuel rest seen fetched pushed
    else if is_valid_url start item.url seen then
      match cfg.pages item.url with
      | none =>
        crawlLoop cfg start fuel rest (item.url :: seen) (fetched ++ [item.url]) pushed
      | some links =>
        if item.depth < cfg.maxDepth then
          crawlLoop cfg start fuel
            ((enqueue_related_urls cfg links item.url item.depth
                (item.url :: seen)).foldl (fun q it => pqInsert it q) rest)
            (item.url :: seen) (fetched ++ [item.url])
            (pushed ++ enqueue_related_urls cfg links item.url item.depth (item.url :: seen))
        else
          crawlLoop cfg start fuel rest (item.url :: seen) (fetched ++ [item.url]) pushed
    else
      crawlLoop cfg start fuel rest seen fetched pushed

/-- `AsyncScraper.scrape` on a start URL: the queue starts with
    `(0, start_url, 0)` and `seen_urls` empty; the result is the trace of the
    loop (fetched URLs and pushed queue items). -/
def crawl (cfg : CrawlConfig) (start : Url) (fuel : ℕ) : List Url × List QItem :=
  crawlLoop cfg start fuel [⟨0, start, 0⟩] [] [] [⟨0, start, 0⟩]

/-- Exactly which items `enqueue_related_urls` produces: within the depth and
    page budgets, the item of every discovered link passing the validity check
    with a positive score, with priority `100 - score` and depth `parent + 1`. -/
theorem mem_enqueue_iff {cfg : CrawlConfig} {links : List (String × Url)}
    {base : Url} {depth : ℕ} {seen : List Url} {it : QItem} :
    it ∈ enqueue_related_urls cfg links base depth seen ↔
      (depth < cfg.maxDepth ∧ seen.length < cfg.maxPages) ∧
      ∃ lk ∈ links, is_valid_url base lk.2 seen = true
        ∧ 0 < calculate_relevance_score lk.1 lk.2
        ∧ it = ⟨100 - calculate_relevance_score lk.1 lk.2, lk.2, depth + 1⟩ := by
  unfold enqueue_related_urls
  by_cases hg : cfg.maxDepth ≤ depth ∨ cfg.maxPages ≤ seen.length
  · rw [if_pos hg]
    simp only [List.not_mem_nil, false_iff]
    rintro ⟨⟨h1, h2⟩, -⟩
    omega
  · push_neg at hg
    rw [if_neg (by omega : ¬(cfg.maxDepth ≤ depth ∨ cfg.maxPages ≤ seen.length))]
    rw [List.mem_filterMap]
    constructor
    · rintro ⟨lk, hlk, hf⟩
      by_cases hv : is_valid_url base lk.2 seen = true
      · rw [if_pos hv] at hf
        by_cases hs : 0 < calculate_relevance_score lk.1 lk.2
        · rw [if_pos hs] at hf
          exact ⟨⟨hg.1, hg.2⟩, lk, hlk, hv, hs, (Option.some.injEq .. ▸ hf).symm⟩
        · rw [if_neg hs] at hf
          exact absurd hf (by simp)
      · rw [if_neg hv] at hf
        exact absurd hf (by simp)
    · rintro ⟨-, lk, hlk, hv, hs, rfl⟩
      exact ⟨lk, hlk, by rw [if_pos hv, if_pos hs]⟩

/-- C7 counterexample (the claim as stated is false): a link whose relevance
    score is positive is still never enqueued when it fails the validity
    check — here an off-domain link scoring 10 produces no queue item. -/
theorem enqueue_positive_score_counterexample :
    0 < calculate_relevance_score "team" ⟨"http", "other.com", "/team", ""⟩
    ∧ enqueue_related_urls
        { maxDepth := 3, maxPages := 50, pages := fun _ => none }
        [("team", ⟨"http", "other.com", "/team", ""⟩)]
        ⟨"http", "ex.com", "/", ""⟩ 0 [] = [] := by
  constructor
  · decide
  · decide

/-- C7 (amended): a discovered link with score ≤ 0 is never enqueued; a
    discovered link with positive score is enqueued with priority exactly
    `100 - score` and depth exactly `parent depth + 1` provided it also passes
    the same-domain/unseen validity check and the crawl is within its depth
    and page budgets (every enqueued item arises from such a link). -/
theorem enqueue_score_priority_depth (cfg : CrawlConfig)
    (links : List (String × Url)) (base : Url) (depth : ℕ) (seen : List Url) :
    (∀ it ∈ enqueue_related_urls cfg links base depth seen,
       ∃ lk ∈ links, is_valid_url base lk.2 seen = true
         ∧ 0 < calculate_relevance_score lk.1 lk.2
         ∧ it = ⟨100 - calculate_relevance_score lk.1 lk.2, lk.2, depth + 1⟩)
    ∧ (depth < cfg.maxDepth → seen.length < cfg.maxPages →
       ∀ lk ∈ links, is_valid_url base lk.2 seen = true →
         0 < calculate_relevance_score lk.1 lk.2 →
         (⟨100 - calculate_relevance_score lk.1 lk.2, lk.2, depth + 1⟩ : QItem)
           ∈ enqueue_related_urls cfg links base depth seen) := by
  constructor
  · intro it hit
    exact (mem_enqueue_iff.1 hit).2
  · intro h1 h2 lk hlk hv hs
    exact mem_enqueue_iff.2 ⟨⟨h1, h2⟩, lk, hlk, hv, hs, rfl⟩

/-- Witness for C7's amended theorem at a concrete in-domain link. -/
theorem enqueue_score_priority_depth_witness :
    (⟨100 - calculate_relevance_score "team" ⟨"http", "ex.com", "/team", ""⟩,
      ⟨"http", "ex.com", "/team", ""⟩, 1⟩ : QItem)
      ∈ enqueue_related_urls
          { maxDepth := 3, maxPages := 50, pages := fun _ => none }
          [("team", ⟨"http", "ex.com", "/team", ""⟩)]
          ⟨"http", "ex.com", "/", ""⟩ 0 [] :=
  (enqueue_score_priority_depth
      { maxDepth := 3, maxPages := 50, pages := fun _ => none }
      [("team", ⟨"http", "ex.com", "/team", ""⟩)]
      ⟨"http", "ex.com", "/", ""⟩ 0 []).2
    (by decide) (by decide) _ (List.mem_singleton.mpr rfl) (by decide) (by decide)

/-- Every item produced by `enqueue_related_urls` is on the domain of the page
    it was discovered on, because `is_valid_url` compares the domains. -/
theorem enqueue_domain {cfg : CrawlConfig} {links : List (String × Url)}
    {base : Url} {depth : ℕ} {seen : List Url} {it : QItem}
    (h : it ∈ enqueue_related_urls cfg links base depth seen) :
    it.url.netloc = base.netloc := by
  obtain ⟨-, lk, -, hv, -, rfl⟩ := mem_enqueue_iff.1 h
  exact ((is_valid_url_iff.1 hv).1).symm

/-- The crawl loop only ever pushes items whose domain equals the start
    URL's: dequeued URLs are validated against the start URL, and pushed
    links are validated against the page they came from. -/
theorem crawlLoop_pushed_domain (cfg : CrawlConfig) (start : Url) :
    ∀ (fuel : ℕ) (queue : List QItem) (seen fetched : List Url) (pushed : List QItem),
    (∀ it ∈ pushed, it.url.netloc = start.netloc) →
    ∀ it ∈ (crawlLoop cfg start fuel queue seen fetched pushed).2,
      it.url.netloc = start.netloc := by
  intro fuel
  induction fuel with
  | zero => intro queue seen fetched pushed h; simpa [crawlLoop] using h
  | succ fuel ih =>
    intro queue seen fetched pushed h
    match queue with
    | [] => simpa [crawlLoop] using h
    | item :: rest =>
      show ∀ it ∈ (crawlLoop cfg start (fuel + 1) (item :: rest) seen fetched pushed).2, _
      rw [crawlLoop]
      by_cases h1 : cfg.maxDepth < item.depth ∨ cfg.maxPages ≤ seen.length
      · rw [if_pos h1]
        exact ih rest seen fetched pushed h
      · rw [if_neg h1]
        by_cases h2 : is_valid_url start item.url seen = true
        · rw [if_pos h2]
          cases hp : cfg.pages item.url with
          | none => exact ih rest _ _ pushed h
          | some links =>
            dsimp only
            by_cases h3 : item.depth < cfg.maxDepth
            · rw [if_pos h3]
              apply ih
              intro it hit
              rcases List.mem_append.1 hit with hA | hB
              · exact h it hA
              · rw [enqueue_domain hB]
                exact ((is_valid_url_iff.1 h2).1).symm
            · rw [if_neg h3]
              exact ih rest _ _ pushed h
        · rw [if_neg h2]
          exact ih rest seen fetched pushed h

/-- C5: every candidate item ever pushed onto the crawl queue during a crawl
    started from a seed URL — the seed's own initial item included — has a
    domain equal to the seed's domain; URLs on any other domain are never
    admitted. -/
theorem crawl_same_domain (cfg : CrawlConfig) (start : Url) (fuel : ℕ) :
    ∀ it ∈ (crawl cfg start fuel).2, it.url.netloc = start.netloc := by
  apply crawlLoop_pushed_domain
  intro it hit
  rw [List.mem_singleton.1 hit]

/-- Seed URL of the concrete crawl used by the C4 counterexample and the
    C4/C5 witnesses. -/
def startEx : Url := ⟨"http", "ex.com", "/", ""⟩

/-- A link of the concrete crawl: same domain and path as `u2Ex`, no query. -/
def u1Ex : Url := ⟨"http", "ex.com", "/a", ""⟩

/-- A link of the concrete crawl: same domain and path as `u1Ex`, but with a
    query string, so the raw URLs differ while the identities coincide. -/
def u2Ex : Url := ⟨"http", "ex.com", "/a", "q=1"⟩

/-- The concrete web: the seed page links to `u1Ex` and `u2Ex`; every other
    page has no links. -/
def cfgEx : CrawlConfig :=
  { maxDepth := 3, maxPages := 50,
    pages := fun u => if u = startEx then some [("a", u1Ex), ("b", u2Ex)] else some [] }

/-- Witness for C5 at a concrete crawl (the seed's initial queue item is among
    the pushed items). -/
theorem crawl_same_domain_witness :
    (QItem.mk 0 startEx 0).url.netloc = startEx.netloc :=
  crawl_same_domain cfgEx startEx 10 ⟨0, startEx, 0⟩ (by decide)

/-- The crawl loop never fetches the same raw URL twice: a URL is added to
    `seen_urls` exactly when it is fetched, and `is_valid_url` rejects URLs
    already in `seen_urls`. -/
theorem crawlLoop_fetched_nodup (cfg : CrawlConfig) (start : Url) :
    ∀ (fuel : ℕ) (queue : List QItem) (seen fetched : List Url) (pushed : List QItem),
    fetched.Nodup → (∀ u ∈ fetched, u ∈ seen) →
    (crawlLoop cfg start fuel queue seen fetched pushed).1.Nodup := by
  intro fuel
  induction fuel with
  | zero => intro queue seen fetched pushed hnd _; simpa [crawlLoop] using hnd
  | succ fuel ih =>
    intro queue seen fetched pushed hnd hsub
    match queue with
    | [] => simpa [crawlLoop] using hnd
    | item :: rest =>
      show (crawlLoop cfg start (fuel + 1) (item :: rest) seen fetched pushed).1.Nodup
      rw [crawlLoop]
      by_cases h1 : cfg.maxDepth < item.depth ∨ cfg.maxPages ≤ seen.length
      · rw [if_pos h1]
        exact ih rest seen fetched pushed hnd hsub
      · rw [if_neg h1]
        by_cases h2 : is_valid_url start item.url seen = true
        · rw [if_pos h2]
          have hnotseen : item.url ∉ seen := (is_valid_url_iff.1 h2).2
          have hnd2 : (fetched ++ [item.url]).Nodup := by
            rw [List.nodup_append]
            refine ⟨hnd, List.nodup_singleton _, ?_⟩
            intro u hu hu1
            rw [List.mem_singleton.1 hu1] at hu
            exact hnotseen (hsub _ hu)
          have hsub2 : ∀ u ∈ fetched ++ [item.url], u ∈ item.url :: seen := by
            intro u hu
            rcases List.mem_append.1 hu with hA | hB
            · exact List.mem_cons_of_mem _ (hsub u hA)
            · rw [List.mem_singleton.1 hB]
              exact List.mem_cons_self _ _
          cases hp : cfg.pages item.url with
          | none => exact ih rest _ _ pushed hnd2 hsub2
          | some links =>
            dsimp only
            by_cases h3 : item.depth < cfg.maxDepth
            · rw [if_pos h3]
              exact ih _ _ _ _ hnd2 hsub2
            · rw [if_neg h3]
              exact ih rest _ _ pushed hnd2 hsub2
        · rw [if_neg h2]
          exact ih rest seen fetched pushed hnd hsub

/-- C4 (amended): during a single crawl no raw URL — compared by full
    equality of scheme, domain, path and query, which is how
    `AsyncScraper.seen_urls` stores URLs — is dequeued and fetched more than
    once; URLs differing only in scheme or query string are distinct raw URLs
    and each may be fetched. -/
theorem crawl_no_repeat_fetch (cfg : CrawlConfig) (start : Url) (fuel : ℕ) :
    (crawl cfg start fuel).1.Nodup :=
  crawlLoop_fetched_nodup cfg start fuel [⟨0, start, 0⟩] [] [] [⟨0, start, 0⟩]
    (List.nodup_nil) (by simp)

/-- C4 counterexample (the claim as stated is false): starting from `startEx`,
    the crawl fetches both `u1Ex` and `u2Ex`, two URLs that differ only in
    their query string and therefore share one (domain, path) identity — the
    async engine dedups by raw URL, not by the `urls.py` identity. -/
theorem crawl_identity_dedup_counterexample :
    (crawl cfgEx startEx 10).1 = [startEx, u1Ex, u2Ex]
    ∧ urlIdentity u1Ex = urlIdentity u2Ex
    ∧ u1Ex ≠ u2Ex := by
  refine ⟨by decide, by decide, by decide⟩

end WebScrape
